import Mathlib

/-!
Verification of the geolocator browser extension's candidate-extraction,
matching and gazetteer-store pipeline.

Shallow embedding of:
- `src/utils/format.js` (text normalizer, stop words, country names helper)
- `src/utils/constants.js` / geocoder module (candidate extraction passes,
  country detection, matcher with qualifier filtering and population pick)
- `src/background/database.js` (`GeoNamesDB`: partition searches, bulk loads,
  counts, download-cache reconciliation)

Modelling conventions:
- JS strings are `String`/`List Char`; `String.prototype.toLowerCase` is
  modelled on the ASCII and Latin-1 letter ranges (`jsToLower`), which covers
  every string appearing in the data model (ISO country codes, GeoNames ascii
  names, extracted candidate text).
- JS `Array.prototype.sort` is stable (ES2019); it is modelled by a stable
  insertion sort (`isort`).
- IndexedDB object stores/indexes are modelled as lists of records; an index
  `getAll(key)` is the filter of the backing list by that key.
- `async` methods that can reject are modelled with `Except StoreErr`;
  methods that always resolve return `.ok` of their value.
- Regex scanning (`pattern.exec` loops) is modelled by explicit scanners that
  follow the JS engine's leftmost-match / greedy-with-backtracking semantics
  for the two concrete patterns in the source; fuel (bounded by the text
  length, ample since every match consumes at least two characters) makes the
  scanners structurally recursive and hence kernel-evaluable.
-/

/-! ## Character classes used by the source regexes -/

/-- `[A-Z]` of the source regexes. -/
def isUpperA (c : Char) : Bool := 'A' ≤ c && c ≤ 'Z'

/-- `[a-z]` of the source regexes. -/
def isLowerA (c : Char) : Bool := 'a' ≤ c && c ≤ 'z'

/-- `[a-zA-Z]` of the source pattern-1 regex. -/
def isAlphaA (c : Char) : Bool := isUpperA c || isLowerA c

/-- `[0-9]`. -/
def isDigitA (c : Char) : Bool := '0' ≤ c && c ≤ '9'

/-- JS word character `\w = [A-Za-z0-9_]`, which determines `\b`. -/
def isWordChar (c : Char) : Bool := isUpperA c || isLowerA c || isDigitA c || c == '_'

/-- JS whitespace `\s` (ASCII part plus NBSP; the proofs only rely on
whitespace being disjoint from word characters). -/
def isJsSpace (c : Char) : Bool :=
  c == ' ' || c == '\t' || c == '\n' || c == '\r' ||
  c == '\x0b' || c == '\x0c' || c == ' '

/-- `String.prototype.toLowerCase` on one character, for the ASCII `A-Z` and
Latin-1 `À-Þ` (except `×`) ranges; other characters are fixed. -/
def jsToLower (c : Char) : Char :=
  if 'A' ≤ c && c ≤ 'Z' then Char.ofNat (c.toNat + 32)
  else if 'À' ≤ c && c ≤ 'Þ' && c != '×' then Char.ofNat (c.toNat + 32)
  else c

/-- `String.prototype.toLowerCase`. -/
def jsToLowerStr (s : String) : String := String.mk (s.data.map jsToLower)

/-! ## Text normalizer (`normalizeText` in `src/utils/format.js`)

`text.toLowerCase().normalize('NFD').replace(/[̀-ͯ]/g, '')
  .replace(/\s+/g, ' ').trim()` -/

/-- Canonical (NFD) decomposition for the Latin-1 lowercase accented letters
(the letters `jsToLower` can produce); other characters decompose to
themselves. -/
def charNFD (c : Char) : List Char :=
  match c with
  | 'à' => ['a', '̀'] | 'á' => ['a', '́'] | 'â' => ['a', '̂']
  | 'ã' => ['a', '̃'] | 'ä' => ['a', '̈'] | 'å' => ['a', '̊']
  | 'ç' => ['c', '̧'] | 'è' => ['e', '̀'] | 'é' => ['e', '́']
  | 'ê' => ['e', '̂'] | 'ë' => ['e', '̈'] | 'ì' => ['i', '̀']
  | 'í' => ['i', '́'] | 'î' => ['i', '̂'] | 'ï' => ['i', '̈']
  | 'ñ' => ['n', '̃'] | 'ò' => ['o', '̀'] | 'ó' => ['o', '́']
  | 'ô' => ['o', '̂'] | 'õ' => ['o', '̃'] | 'ö' => ['o', '̈']
  | 'ù' => ['u', '̀'] | 'ú' => ['u', '́'] | 'û' => ['u', '̂']
  | 'ü' => ['u', '̈'] | 'ý' => ['y', '́'] | 'ÿ' => ['y', '̈']
  | _ => [c]

/-- `.replace(/[̀-ͯ]/g, '')`. -/
def stripCombining (l : List Char) : List Char :=
  l.filter (fun c => !(0x300 ≤ c.toNat && c.toNat ≤ 0x36f))

/-- `.replace(/\s+/g, ' ')`: the flag records whether the previous character
was part of a whitespace run already replaced by a single space. -/
def collapseAux : Bool → List Char → List Char
  | _, [] => []
  | inSpace, c :: cs =>
    if isJsSpace c then
      if inSpace then collapseAux true cs else ' ' :: collapseAux true cs
    else c :: collapseAux false cs

def collapseWs (l : List Char) : List Char := collapseAux false l

/-- `String.prototype.trim` (on the whitespace model above). -/
def jsTrim (l : List Char) : List Char :=
  ((l.dropWhile isJsSpace).reverse.dropWhile isJsSpace).reverse

/-- `normalizeText` from `src/utils/format.js`: lowercase, NFD decomposition,
strip combining diacritics, collapse whitespace runs, trim. -/
def normalizeText (text : String) : String :=
  String.mk (jsTrim (collapseWs (stripCombining
    (((jsToLowerStr text).data.map charNFD).flatten))))

/-! ## Data model -/

/-- One gazetteer record, as produced by `scripts/prepare-data.js` and stored
in the `cities` / `countryData` object stores.  `ascii` is the lowercased
GeoNames ascii name (the `asciiName` index key); `pop` as in the source.
`lat`/`lng`/`alternates`/feature fields are carried by the source records but
never read by the matching, detection or store-reconciliation code under
verification, so they are omitted from the embedding. -/
structure GeoRecord where
  geonameId : Nat
  name : String
  ascii : String
  country : String
  admin1 : String
  pop : Nat
deriving DecidableEq, Repr

/-- One `downloadCache` entry (`DownloadRecord` of the spec). -/
structure DownloadRec where
  countryCode : String
  downloadDate : String
  cityCount : Nat
deriving DecidableEq, Repr

/-- Error conditions of the store (`throw new Error('Database not
initialized')` — the spec's `StoreUnavailable`). -/
inductive StoreErr where
  | storeUnavailable
deriving DecidableEq, Repr

/-- The `GeoNamesDB` state: `isReady` flag, the `cities` store (bundled global
partition), the `countryData` store (downloaded partition) and the
`downloadCache` store.  IndexedDB keeps records ordered by primary key; no
claim depends on that order, so the lists are kept abstract. -/
structure GeoNamesDB where
  isReady : Bool
  cities : List GeoRecord
  countryData : List GeoRecord
  downloadCache : List DownloadRec
deriving DecidableEq, Repr

/-- A candidate place mention.  The source also carries `pattern`,
`confidence`, `context` and `index` fields; they are never read by the
matcher or the country detector, so the embedding keeps only the fields the
verified code consumes. -/
structure Candidate where
  name : String
  qualifier : Option String
deriving DecidableEq, Repr

/-- One entry of the country-detection result (`{ code, count }`). -/
structure CountryCount where
  code : String
  count : Nat
deriving DecidableEq, Repr

/-! ## `COUNTRY_NAMES` and helpers (`src/utils/constants.js`, `format.js`) -/

/-- The `COUNTRY_NAMES` object, in source order.  (`'NZ'` appears twice in the
object literal with the same value; a JS object keeps a single entry.) -/
def COUNTRY_NAMES : List (String × String) :=
  [("US", "United States"), ("GB", "United Kingdom"), ("FR", "France"),
   ("DE", "Germany"), ("IT", "Italy"), ("ES", "Spain"), ("CA", "Canada"),
   ("AU", "Australia"), ("NZ", "New Zealand"), ("JP", "Japan"),
   ("CN", "China"), ("IN", "India"), ("BR", "Brazil"), ("MX", "Mexico"),
   ("AR", "Argentina"), ("RU", "Russia"), ("NL", "Netherlands"),
   ("BE", "Belgium"), ("CH", "Switzerland"), ("AT", "Austria"),
   ("SE", "Sweden"), ("NO", "Norway"), ("DK", "Denmark"), ("FI", "Finland"),
   ("PL", "Poland"), ("CZ", "Czech Republic"), ("PT", "Portugal"),
   ("GR", "Greece"), ("TR", "Turkey"), ("IL", "Israel"), ("EG", "Egypt"),
   ("ZA", "South Africa"), ("KE", "Kenya"), ("NG", "Nigeria"),
   ("KR", "South Korea"), ("TH", "Thailand"), ("SG", "Singapore"),
   ("MY", "Malaysia"), ("ID", "Indonesia"), ("PH", "Philippines"),
   ("VN", "Vietnam"), ("NP", "Nepal"), ("BD", "Bangladesh"),
   ("PK", "Pakistan"), ("AF", "Afghanistan"), ("IQ", "Iraq"), ("IR", "Iran"),
   ("SA", "Saudi Arabia"), ("AE", "United Arab Emirates"), ("IE", "Ireland"),
   ("IS", "Iceland"), ("CL", "Chile"), ("PE", "Peru"), ("CO", "Colombia"),
   ("VE", "Venezuela"), ("CU", "Cuba"), ("UY", "Uruguay"),
   ("CR", "Costa Rica"), ("PA", "Panama"), ("HN", "Honduras"),
   ("GT", "Guatemala"), ("EC", "Ecuador"), ("BO", "Bolivia"),
   ("PY", "Paraguay"), ("AD", "Andorra"), ("MC", "Monaco"),
   ("LI", "Liechtenstein"), ("LU", "Luxembourg"), ("MT", "Malta"),
   ("SM", "San Marino"), ("VA", "Vatican City")]

/-- `getCountryName` from `format.js`: `COUNTRY_NAMES[countryCode] ||
countryCode`. -/
def getCountryName (countryCode : String) : String :=
  match COUNTRY_NAMES.find? (fun p => p.1 == countryCode) with
  | some p => p.2
  | none => countryCode

/-- The `STOP_WORDS` set from `format.js` (membership is checked on the
lowercased word). -/
def STOP_WORDS : List String :=
  ["the", "and", "or", "but", "in", "on", "at", "to", "for", "of", "with",
   "by", "from", "up", "about", "into", "through", "during", "before",
   "after", "above", "below", "between", "under", "again", "further", "then",
   "once", "january", "february", "march", "april", "may", "june", "july",
   "august", "september", "october", "november", "december", "monday",
   "tuesday", "wednesday", "thursday", "friday", "saturday", "sunday", "mr",
   "mrs", "ms", "dr", "prof", "sir", "lord", "lady", "street", "avenue",
   "road", "lane", "drive", "boulevard"]

/-- `isStopWord` from `format.js`. -/
def isStopWord (word : String) : Bool := STOP_WORDS.contains (jsToLowerStr word)

/-- The `falsePositives` set of `isCommonFalsePositive` (case-sensitive). -/
def falsePositiveWords : List String :=
  ["Monday", "Tuesday", "Wednesday", "Thursday", "Friday", "Saturday",
   "Sunday", "January", "February", "March", "April", "May", "June", "July",
   "August", "September", "October", "November", "December", "Reading",
   "Bath", "Nice", "Mobile", "China", "Jordan", "Hope", "Liberty", "America",
   "Europe", "Asia", "Africa", "North", "South", "East", "West", "King",
   "Queen", "Prince", "Princess", "Lord", "Lady", "Saint", "Roman", "Greek",
   "English", "French", "German", "First", "Second", "Third", "Last",
   "Great", "Little", "New", "Old", "Early", "Late", "Modern", "Ancient",
   "Time", "Date", "Pop", "Anthem", "Alba"]

/-- `isCommonFalsePositive` from the geocoder module. -/
def isCommonFalsePositive (word : String) : Bool :=
  falsePositiveWords.contains word

/-! ## Gazetteer store operations (`src/background/database.js`) -/

/-- Payload of `searchByName`: `cities` index `asciiName`,
`getAll(name.toLowerCase())`. -/
def searchByNamePure (db : GeoNamesDB) (name : String) : List GeoRecord :=
  db.cities.filter (fun r => r.ascii == jsToLowerStr name)

/-- `searchByName` (the spec's `searchGlobal`): throws when the store is not
initialized. -/
def searchByName (db : GeoNamesDB) (name : String) :
    Except StoreErr (List GeoRecord) :=
  if !db.isReady then .error .storeUnavailable
  else .ok (searchByNamePure db name)

/-- Payload of `searchCountryData`: `countryData` index `asciiName`,
`getAll(name.toLowerCase())`. -/
def searchCountryDataPure (db : GeoNamesDB) (name : String) : List GeoRecord :=
  db.countryData.filter (fun r => r.ascii == jsToLowerStr name)

/-- `searchCountryData` (the spec's `searchCountryPartition`). -/
def searchCountryData (db : GeoNamesDB) (name : String) :
    Except StoreErr (List GeoRecord) :=
  if !db.isReady then .error .storeUnavailable
  else .ok (searchCountryDataPure db name)

/-- The deduplication loop of `searchAllSources`: keep the first record for
each `geonameId` (`seen` accumulates the ids already emitted). -/
def dedupByIdAux (seen : List Nat) : List GeoRecord → List GeoRecord
  | [] => []
  | c :: cs =>
    if seen.contains c.geonameId then dedupByIdAux seen cs
    else c :: dedupByIdAux (c.geonameId :: seen) cs

def dedupById (l : List GeoRecord) : List GeoRecord := dedupByIdAux [] l

/-- Payload of `searchAllSources`. -/
def searchAllPure (db : GeoNamesDB) (name : String) : List GeoRecord :=
  dedupById (searchByNamePure db name ++ searchCountryDataPure db name)

/-- `searchAllSources` (the spec's `searchAll`): awaits both partition
searches (each throws when uninitialized), concatenates global results first
and deduplicates by `geonameId`. -/
def searchAllSources (db : GeoNamesDB) (name : String) :
    Except StoreErr (List GeoRecord) := do
  let citiesResults ← searchByName db name
  let countryResults ← searchCountryData db name
  return dedupById (citiesResults ++ countryResults)

/-- `loadCities`: clears the `cities` store and bulk-inserts the new records
(the metadata marker is not modelled — no claim reads it). -/
def loadCities (db : GeoNamesDB) (cities : List GeoRecord) :
    Except StoreErr GeoNamesDB :=
  if !db.isReady then .error .storeUnavailable
  else .ok { db with cities := cities }

/-- `loadCountryData`: `put`s every record into `countryData` (replacing any
record with the same `geonameId`) and writes the `downloadCache` entry for
the country. -/
def loadCountryData (db : GeoNamesDB) (countryCode : String)
    (cities : List GeoRecord) : Except StoreErr GeoNamesDB :=
  if !db.isReady then .error .storeUnavailable
  else .ok { db with
    countryData :=
      (db.countryData.filter
        (fun r => !(cities.any (fun c => c.geonameId == r.geonameId)))) ++
      cities,
    downloadCache :=
      (db.downloadCache.filter (fun d => !(d.countryCode == countryCode))) ++
      [{ countryCode := countryCode, downloadDate := "", cityCount := cities.length }] }

/-- `getCitiesCount`: resolves `0` when the store is not ready (it does not
throw). -/
def getCitiesCount (db : GeoNamesDB) : Except StoreErr Nat :=
  if !db.isReady then .ok 0 else .ok db.cities.length

/-- `getCountryDataCount`: resolves `0` when the store is not ready. -/
def getCountryDataCount (db : GeoNamesDB) : Except StoreErr Nat :=
  if !db.isReady then .ok 0 else .ok db.countryData.length

/-- `isCountryDownloaded` (the spec's `isCountryReady`): resolves `false` when
the store is not ready; otherwise requires a `downloadCache` entry and then a
non-zero count on the `countryData` store's `countryCode` index. -/
def isCountryDownloaded (db : GeoNamesDB) (countryCode : String) :
    Except StoreErr Bool :=
  if !db.isReady then .ok false
  else
    match db.downloadCache.find? (fun d => d.countryCode == countryCode) with
    | none => .ok false
    | some _ =>
      let count := db.countryData.countP (fun r => r.country == countryCode)
      if count == 0 then .ok false else .ok true

/-- `getDownloadedCountries` (the spec's `listDownloadedCountries`): resolves
`[]` when the store is not ready. -/
def getDownloadedCountries (db : GeoNamesDB) :
    Except StoreErr (List DownloadRec) :=
  if !db.isReady then .ok [] else .ok db.downloadCache

/-! ## Matcher (`findMatches` / `filterByQualifier` in the geocoder module) -/

/-- The filter predicate of `filterByQualifier`: the (lowercased) qualifier
must equal the record's country code, the resolved country name, the name of
a `COUNTRY_NAMES` entry whose code is the record's country, or the record's
(truthy) `admin1` code — all case-insensitively. -/
def qualifierAccepts (qualifier : String) (m : GeoRecord) : Bool :=
  let nq := jsToLowerStr qualifier
  if jsToLowerStr m.country == nq then true
  else if jsToLowerStr (getCountryName m.country) == nq then true
  else if COUNTRY_NAMES.any (fun p => jsToLowerStr p.2 == nq && p.1 == m.country)
    then true
  else if m.admin1 != "" && jsToLowerStr m.admin1 == nq then true
  else false

/-- `filterByQualifier` from the geocoder module. -/
def filterByQualifier (ms : List GeoRecord) (qualifier : String) :
    List GeoRecord :=
  ms.filter (qualifierAccepts qualifier)

/-- Stable insertion: a later input element `x` is placed before an
already-placed element `y` only when `le x y` holds, matching a stable sort
with a `(a, b) => key b - key a` style comparator. -/
def insertLe (le : α → α → Bool) (x : α) : List α → List α
  | [] => [x]
  | y :: ys => if le x y then x :: y :: ys else y :: insertLe le x ys

/-- Stable insertion sort, modelling `Array.prototype.sort` (stable per
ES2019). -/
def isort (le : α → α → Bool) : List α → List α
  | [] => []
  | x :: xs => insertLe le x (isort le xs)

/-- Comparator of `findMatches`' population sort:
`(a, b) => (b.pop || 0) - (a.pop || 0)` — descending population. -/
def popGe (a b : GeoRecord) : Bool := b.pop ≤ a.pop

/-- The country filter of `findMatches`: applied only when `filterCountries`
is provided and non-empty. -/
def survivors (cityMatches : List GeoRecord)
    (filterCountries : Option (List String)) : List GeoRecord :=
  match filterCountries with
  | some fc =>
    if 0 < fc.length then cityMatches.filter (fun m => fc.contains m.country)
    else cityMatches
  | none => cityMatches

/-- The body of `findMatches` after the search-scope query: early return on an
empty result, country filter (with early return when it empties the list),
then either the qualifier filter (all survivors) or the population sort
truncated to one record.  In the source the second emptiness check sits
inside the `filterCountries` branch; when no filter is applied the list
already passed the first check, so checking the survivors is equivalent. -/
def findMatchesPure (candidate : Candidate) (cityMatches : List GeoRecord)
    (filterCountries : Option (List String)) : List GeoRecord :=
  if cityMatches = [] then []
  else
    let surv := survivors cityMatches filterCountries
    if surv = [] then []
    else
      match candidate.qualifier with
      | some q => filterByQualifier surv q
      | none => (isort popGe surv).take 1

/-- The search scope chosen by `findMatches`: `searchCountryData` when
`useCountryDataOnly`, else `searchAllSources` (payload form, defined for an
initialized store). -/
def scopeList (db : GeoNamesDB) (useCountryDataOnly : Bool) (name : String) :
    List GeoRecord :=
  if useCountryDataOnly then searchCountryDataPure db name
  else searchAllPure db name

/-- `findMatches` from the geocoder module. -/
def findMatches (candidate : Candidate) (db : GeoNamesDB)
    (useCountryDataOnly : Bool) (filterCountries : Option (List String)) :
    Except StoreErr (List GeoRecord) := do
  let cityMatches ←
    if useCountryDataOnly then searchCountryData db candidate.name
    else searchAllSources db candidate.name
  return findMatchesPure candidate cityMatches filterCountries

/-! ## Country detector (`detectCountriesFromCandidates`) -/

/-- Country-code hits one candidate contributes: the global-partition lookup's
records with a truthy `country`, in order.  A rejected lookup is swallowed
(`catch` with a bare `continue`), contributing nothing. -/
def candidateHits (db : GeoNamesDB) (c : Candidate) : List String :=
  match searchByName db c.name with
  | .ok ms => (ms.filter (fun m => m.country != "")).map (fun m => m.country)
  | .error _ => []

/-- One step of the `countryCounts` map update:
`countryCounts.set(c, (countryCounts.get(c) || 0) + 1)`.  A JS `Map` keeps
insertion order, updating in place; modelled as an association list. -/
def bump : List (String × Nat) → String → List (String × Nat)
  | [], c => [(c, 1)]
  | (k, n) :: rest, c =>
    if k = c then (k, n + 1) :: rest else (k, n) :: bump rest c

/-- Code-unit-wise string order (what `localeCompare` amounts to on the
uppercase ASCII ISO country codes): alphabetical. -/
def charsLe : List Char → List Char → Bool
  | [], _ => true
  | _ :: _, [] => false
  | a :: as, b :: bs =>
    if a.toNat < b.toNat then true
    else if b.toNat < a.toNat then false
    else charsLe as bs

def strLe (a b : String) : Bool := charsLe a.data b.data

/-- Comparator of the detector's sort: count descending, ties by
`localeCompare` (alphabetical for the uppercase ISO codes) ascending. -/
def ccLe (a b : String × Nat) : Bool :=
  if a.2 = b.2 then strLe a.1 b.1 else b.2 < a.2

/-- `detectCountriesFromCandidates` from the geocoder module: tally hits per
country over all candidates, sort by descending count (ties alphabetical),
take the top 10, shape as `{ code, count }`. -/
def detectCountriesFromCandidates (candidates : List Candidate)
    (db : GeoNamesDB) : List CountryCount :=
  let stream := candidates.flatMap (candidateHits db)
  let tally := stream.foldl bump []
  ((isort ccLe tally).take 10).map (fun p => { code := p.1, count := p.2 })

/-- First-occurrence deduplication (the behaviour of the `seen` set in Pass B
and of JS `Map` key order in the detector): `seen` lists the values already
emitted. -/
def firstDedupAux (seen : List String) : List String → List String
  | [] => []
  | x :: xs =>
    if seen.contains x then firstDedupAux seen xs
    else x :: firstDedupAux (x :: seen) xs

def firstDedup (l : List String) : List String := firstDedupAux [] l

/-! ## Candidate extractor — Pass B (`extractCapitalizedWords`)

Pattern: `/\b([A-Z][a-z]+(?:\s+[A-Z][a-z]+){0,2})\b/g`, driven by a
`pattern.exec` loop.  The JS engine semantics for this pattern reduce to:

* a match can only start at a `\b` before `[A-Z][a-z]` (backtracking inside a
  greedy `[a-z]+` never helps because the character it would give back is a
  lowercase — i.e. word — character, so the following `\s`, `[A-Z]` or `\b`
  still fails);
* the `(?:\s+[A-Z][a-z]+){0,2}` repetition is greedy, tried at 2, 1 then 0
  repetitions; the trailing `\b` holds after `k` repetitions exactly when the
  first unconsumed character is absent or not a word character, and it holds
  automatically after `k-1 ≥ 0` repetitions because the dropped repetition
  began with whitespace. -/

/-- `[A-Z][a-z]+`: one capitalized word.  Returns the consumed characters and
the rest. -/
def matchWord : List Char → Option (List Char × List Char)
  | [] => none
  | c :: rest =>
    if isUpperA c then
      let ls := rest.takeWhile isLowerA
      if ls = [] then none else some (c :: ls, rest.drop ls.length)
    else none

/-- `\s+[A-Z][a-z]+`: one greedy repetition of the optional group. -/
def matchExt (cs : List Char) : Option (List Char × List Char) :=
  let ws := cs.takeWhile isJsSpace
  if ws = [] then none
  else
    match matchWord (cs.drop ws.length) with
    | some (w, rest) => some (ws ++ w, rest)
    | none => none

/-- The trailing `\b`: holds at end of input or before a non-word
character. -/
def endOk : List Char → Bool
  | [] => true
  | c :: _ => !isWordChar c

/-- One attempt of the Pass-B pattern at the current position (the leading
`\b` and `[A-Z]` start are checked by the scanner via `matchWord`): greedy
repetitions with backtracking on the trailing `\b`. -/
def matchAt (cs : List Char) : Option (List Char × List Char) :=
  match matchWord cs with
  | none => none
  | some (w0, r0) =>
    match matchExt r0 with
    | none => if endOk r0 then some (w0, r0) else none
    | some (e1, r1) =>
      match matchExt r1 with
      | none =>
        if endOk r1 then some (w0 ++ e1, r1)
        else if endOk r0 then some (w0, r0)
        else none
      | some (e2, r2) =>
        if endOk r2 then some (w0 ++ e1 ++ e2, r2)
        else if endOk r1 then some (w0 ++ e1, r1)
        else if endOk r0 then some (w0, r0)
        else none

/-- The `exec` loop of Pass B: tries each position left to right (`prevWord`
tracks whether the previous character is a word character, for the leading
`\b`), emits `(match, following character)` pairs and resumes after each
match.  Fuel (instantiated with the text length, ample since every match
consumes at least two characters) keeps the recursion structural. -/
def scanB (fuel : Nat) (prevWord : Bool) (cs : List Char) :
    List (List Char × Option Char) :=
  match fuel with
  | 0 => []
  | fuel + 1 =>
    match cs with
    | [] => []
    | c :: rest =>
      if prevWord then scanB fuel (isWordChar c) rest
      else
        match matchAt (c :: rest) with
        | some (w, r) => (w, r.head?) :: scanB fuel true r
        | none => scanB fuel (isWordChar c) rest

/-- The per-match processing of Pass B: skip when the lowercased word was
already seen, when it is a stop word or a common false positive, or when the
character following the match is a lowercase letter; otherwise record the
word and emit a qualifier-free candidate. -/
def processB (seen : List String) : List (List Char × Option Char) → List Candidate
  | [] => []
  | (w, nextChar) :: ms =>
    let word : String := String.mk w
    let lower := jsToLowerStr word
    if seen.contains lower then processB seen ms
    else if isStopWord word || isCommonFalsePositive word then processB seen ms
    else if (match nextChar with | some c => isLowerA c | none => false) then
      processB seen ms
    else { name := word, qualifier := none } :: processB (lower :: seen) ms

/-- `processB` with the `nextChar` lowercase-skip branch removed. -/
def processBNoSkip (seen : List String) :
    List (List Char × Option Char) → List Candidate
  | [] => []
  | (w, _) :: ms =>
    let word : String := String.mk w
    let lower := jsToLowerStr word
    if seen.contains lower then processBNoSkip seen ms
    else if isStopWord word || isCommonFalsePositive word then
      processBNoSkip seen ms
    else { name := word, qualifier := none } :: processBNoSkip (lower :: seen) ms

/-- `extractCapitalizedWords` from the geocoder module. -/
def extractCapitalizedWords (text : String) : List Candidate :=
  processB [] (scanB text.data.length false text.data)

/-- `extractCapitalizedWords` with the lowercase-next-character skip branch
removed (for the dead-branch claim). -/
def extractCapitalizedWordsNoSkip (text : String) : List Candidate :=
  processBNoSkip [] (scanB text.data.length false text.data)

/-! ## Candidate extractor — Pass A (`extractCandidates`)

Pattern:
`/\b([A-Z][a-zA-Z]+(?:\s+[A-Z][a-zA-Z]+)*),\s*([A-Z][a-zA-Z]+(?:\s+[A-Z][a-zA-Z]+)*)\b/g`.

For this pattern the engine semantics reduce to: the left side is the maximal
run of whitespace-separated `[A-Z][a-zA-Z]+` tokens (no useful backtracking:
after any non-final token the next character is whitespace, never the
required `,`); the `,` must follow it directly; after `,\s*` the right side
is again a maximal token run, backing off one repetition when the trailing
`\b` fails (the shorter run always ends before whitespace, where `\b`
holds). -/

/-- `[A-Z][a-zA-Z]+`: one pattern-1 token. -/
def matchWordA : List Char → Option (List Char × List Char)
  | [] => none
  | c :: rest =>
    if isUpperA c then
      let ls := rest.takeWhile isAlphaA
      if ls = [] then none else some (c :: ls, rest.drop ls.length)
    else none

/-- `\s+[A-Z][a-zA-Z]+`: one repetition of a pattern-1 group. -/
def matchExtA (cs : List Char) : Option (List Char × List Char) :=
  let ws := cs.takeWhile isJsSpace
  if ws = [] then none
  else
    match matchWordA (cs.drop ws.length) with
    | some (w, rest) => some (ws ++ w, rest)
    | none => none

/-- All greedy repetitions of `\s+token` from the given position, with the
rest after each repetition (for backtracking).  Fuel is instantiated with the
input length; each repetition consumes at least three characters. -/
def greedyExtsA (fuel : Nat) (cs : List Char) : List (List Char × List Char) :=
  match fuel with
  | 0 => []
  | fuel + 1 =>
    match matchExtA cs with
    | none => []
    | some (e, r) => (e, r) :: greedyExtsA fuel r

/-- The right side of pattern 1 after its first token `rw0` (rest `r4`) and
its greedy repetitions `exts`: keep all repetitions when the trailing `\b`
holds, otherwise drop the last repetition (after which the rest begins with
the whitespace that started the dropped repetition, where `\b` holds). -/
def pickRight (rw0 : List Char) (r4 : List Char)
    (exts : List (List Char × List Char)) : Option (List Char × List Char) :=
  match exts.getLast? with
  | none => if endOk r4 then some (rw0, r4) else none
  | some (_, lr) =>
    if endOk lr then some (rw0 ++ (exts.map Prod.fst).flatten, lr)
    else
      match exts.dropLast.getLast? with
      | some (_, r2) =>
        some (rw0 ++ (exts.dropLast.map Prod.fst).flatten, r2)
      | none => some (rw0, r4)

/-- One attempt of pattern 1 at the current position: left token run, the
comma, `\s*`, right token run with trailing `\b`.  Returns (captured group 1,
captured group 2, rest after the whole match). -/
def matchA (cs : List Char) : Option (List Char × List Char × List Char) :=
  match matchWordA cs with
  | none => none
  | some (w0, r0) =>
    let exts := greedyExtsA r0.length r0
    let left := w0 ++ (exts.map Prod.fst).flatten
    let r1 := match exts.getLast? with
      | some (_, r) => r
      | none => r0
    match r1 with
    | ',' :: r2 =>
      let ws2 := r2.takeWhile isJsSpace
      let r3 := r2.drop ws2.length
      match matchWordA r3 with
      | none => none
      | some (rw0, r4) =>
        match pickRight rw0 r4 (greedyExtsA r4.length r4) with
        | some (right, r5) => some (left, right, r5)
        | none => none
    | _ => none

/-- The `exec` loop of Pass A (analogous to `scanB`): emits
(group 1, group 2) pairs. -/
def scanA (fuel : Nat) (prevWord : Bool) (cs : List Char) :
    List (List Char × List Char) :=
  match fuel with
  | 0 => []
  | fuel + 1 =>
    match cs with
    | [] => []
    | c :: rest =>
      if prevWord then scanA fuel (isWordChar c) rest
      else
        match matchA (c :: rest) with
        | some (left, right, r) => (left, right) :: scanA fuel true r
        | none => scanA fuel (isWordChar c) rest

/-- The per-match processing of Pass A: `cityName = match[1].trim()`,
`qualifier = match[2].trim()` (both trims are identities here since a capture
starts and ends on a letter, but they are applied as in the source), skipping
candidates whose city name is a stop word. -/
def processA : List (List Char × List Char) → List Candidate
  | [] => []
  | (left, right) :: ms =>
    let cityName : String := String.mk (jsTrim left)
    let qualifier : String := String.mk (jsTrim right)
    if isStopWord cityName then processA ms
    else { name := cityName, qualifier := some qualifier } :: processA ms

/-- `extractCandidates` from the geocoder module (Pass A). -/
def extractCandidates (text : String) : List Candidate :=
  processA (scanA text.data.length false text.data)

/-- The detection-only branch of `geocodeText`: all candidates are Pass-A
candidates followed by Pass-B candidates; an empty candidate list
short-circuits to no detected countries. -/
def geocodeDetect (text : String) (db : GeoNamesDB) : List CountryCount :=
  let patternCandidates := extractCandidates text
  let wordCandidates := extractCapitalizedWords text
  let allCandidates := patternCandidates ++ wordCandidates
  if allCandidates = [] then []
  else detectCountriesFromCandidates allCandidates db

deriving instance DecidableEq for Except

/-! ## Concrete stores and records used by witnesses and counterexamples -/

/-- A store that has not completed initialization. -/
def uninitDb : GeoNamesDB :=
  { isReady := false, cities := [], countryData := [], downloadCache := [] }

def parisFR : GeoRecord :=
  { geonameId := 1, name := "Paris", ascii := "paris", country := "FR",
    admin1 := "11", pop := 2138551 }

def parisUS : GeoRecord :=
  { geonameId := 2, name := "Paris", ascii := "paris", country := "US",
    admin1 := "TX", pop := 25171 }

def parisDb : GeoNamesDB :=
  { isReady := true, cities := [parisFR, parisUS], countryData := [],
    downloadCache := [] }

def quebecRec : GeoRecord :=
  { geonameId := 7, name := "Québec", ascii := "quebec", country := "CA",
    admin1 := "10", pop := 531902 }

def quebecDb : GeoNamesDB :=
  { isReady := true, cities := [quebecRec], countryData := [],
    downloadCache := [] }

/-- A store whose download cache says FR is downloaded while the country
partition holds no FR records (stale cache marker). -/
def staleDb : GeoNamesDB :=
  { isReady := true, cities := [], countryData := [],
    downloadCache := [{ countryCode := "FR", downloadDate := "", cityCount := 100 }] }

/-! ## C7: download-status reconciliation -/

/-- C7: for an initialized store, `isCountryDownloaded` resolves `true`
exactly when a `downloadCache` entry for the code exists and the country
partition holds at least one record with that country code; in particular a
stale cache entry with zero partition records yields `false`. -/
theorem isCountryReady_iff (db : GeoNamesDB) (code : String)
    (h : db.isReady = true) :
    (isCountryDownloaded db code = .ok true ↔
      ((∃ d ∈ db.downloadCache, d.countryCode = code) ∧
       ∃ r ∈ db.countryData, r.country = code)) ∧
    ((¬ ∃ r ∈ db.countryData, r.country = code) →
      isCountryDownloaded db code = .ok false) := by
  have hfind : (db.downloadCache.find? (fun d => d.countryCode == code)).isSome
      ↔ ∃ d ∈ db.downloadCache, d.countryCode = code := by
    rw [List.find?_isSome]
    constructor
    · rintro ⟨d, hd, hbeq⟩
      exact ⟨d, hd, by simpa using hbeq⟩
    · rintro ⟨d, hd, hbeq⟩
      exact ⟨d, hd, by simpa using hbeq⟩
  have hcount : 0 < db.countryData.countP (fun r => r.country == code) ↔
      ∃ r ∈ db.countryData, r.country = code := by
    rw [List.countP_pos_iff]
    constructor
    · rintro ⟨r, hr, hbeq⟩
      exact ⟨r, hr, by simpa using hbeq⟩
    · rintro ⟨r, hr, hbeq⟩
      exact ⟨r, hr, by simpa using hbeq⟩
  unfold isCountryDownloaded
  rw [h]
  simp only [Bool.not_true, Bool.false_eq_true, if_false]
  constructor
  · cases hf : db.downloadCache.find? (fun d => d.countryCode == code) with
    | none =>
      simp only [hf, Option.isSome_none] at hfind
      constructor
      · intro hcontr
        exact absurd hcontr (by simp)
      · rintro ⟨hex, -⟩
        exact absurd (hfind.mpr hex) (by simp)
    | some d =>
      simp only [hf, Option.isSome_some] at hfind
      by_cases hz : db.countryData.countP (fun r => r.country == code) = 0
      · simp only [hz]
        constructor
        · intro hcontr
          exact absurd hcontr (by simp)
        · rintro ⟨-, hex⟩
          rw [← hcount] at hex
          omega
      · have : ¬ (db.countryData.countP (fun r => r.country == code) == 0) = true := by
          simpa using hz
        simp only [if_neg this]
        constructor
        · intro _
          exact ⟨hfind.mp (by simp), hcount.mp (by omega)⟩
        · intro _
          trivial
  · intro hne
    cases hf : db.downloadCache.find? (fun d => d.countryCode == code) with
    | none => rfl
    | some d =>
      have hz : db.countryData.countP (fun r => r.country == code) = 0 := by
        by_contra hnz
        exact hne (hcount.mp (by omega))
      simp [hz]

/-- C7 witness: a cache entry without partition data is reported not
downloaded. -/
theorem isCountryReady_iff_witness :
    isCountryDownloaded staleDb "FR" = .ok false :=
  (isCountryReady_iff staleDb "FR" rfl).2 (by decide)

/-! ## C8: behaviour of the store before initialization (corrected) -/

/-- C8 counterexample: the claim says every store operation invoked before
initialization fails with `StoreUnavailable`; in fact the counts,
`isCountryDownloaded` and `getDownloadedCountries` resolve normal fallback
values (`0`, `false`, `[]`). -/
theorem store_uninitialized_counterexample :
    isCountryDownloaded uninitDb "FR" = .ok false ∧
    isCountryDownloaded uninitDb "FR" ≠ .error .storeUnavailable ∧
    getCitiesCount uninitDb = .ok 0 ∧
    getCitiesCount uninitDb ≠ .error .storeUnavailable ∧
    getCountryDataCount uninitDb = .ok 0 ∧
    getDownloadedCountries uninitDb = .ok [] ∧
    getDownloadedCountries uninitDb ≠ .error .storeUnavailable := by
  decide

/-- C8 amended: before initialization the partition searches and bulk loads
fail with `StoreUnavailable`, while the counts resolve `0`,
`isCountryDownloaded` resolves `false` and `getDownloadedCountries` resolves
`[]` instead of failing. -/
theorem store_uninitialized_behavior (db : GeoNamesDB) (name code : String)
    (recs : List GeoRecord) (h : db.isReady = false) :
    searchByName db name = .error .storeUnavailable ∧
    searchCountryData db name = .error .storeUnavailable ∧
    searchAllSources db name = .error .storeUnavailable ∧
    loadCities db recs = .error .storeUnavailable ∧
    loadCountryData db code recs = .error .storeUnavailable ∧
    getCitiesCount db = .ok 0 ∧
    getCountryDataCount db = .ok 0 ∧
    isCountryDownloaded db code = .ok false ∧
    getDownloadedCountries db = .ok [] := by
  obtain ⟨ready, cs, cd, dc⟩ := db
  have h2 : ready = false := h
  subst h2
  exact ⟨rfl, rfl, rfl, rfl, rfl, rfl, rfl, rfl, rfl⟩

/-- C8 amended witness. -/
theorem store_uninitialized_behavior_witness :
    searchByName uninitDb "Paris" = .error .storeUnavailable ∧
    getCitiesCount uninitDb = .ok 0 :=
  ⟨(store_uninitialized_behavior uninitDb "Paris" "FR" [] rfl).1,
   (store_uninitialized_behavior uninitDb "Paris" "FR" [] rfl).2.2.2.2.2.1⟩

/-! ## C9: `searchGlobal` keying (corrected) -/

/-- C9 counterexample: `searchByName` keys the index lookup on
`name.toLowerCase()` only; it does not apply the text normalizer (diacritics
are not stripped), so a record whose `ascii` equals the normalized form of
the query is missed. -/
theorem searchGlobal_normalization_counterexample :
    normalizeText "Québec" = "quebec" ∧
    jsToLowerStr "Québec" = "québec" ∧
    searchByName quebecDb "Québec" = .ok [] ∧
    quebecDb.cities.filter (fun r => r.ascii == normalizeText "Québec") =
      [quebecRec] ∧
    searchByName quebecDb "Québec" ≠
      .ok (quebecDb.cities.filter (fun r => r.ascii == normalizeText "Québec")) := by
  decide

/-- C9 amended: for an initialized store, `searchByName` returns exactly the
records of the bundled partition whose `ascii` key equals the lowercased
query — lowercasing only, without diacritic stripping or whitespace
collapsing. -/
theorem searchGlobal_lowercase_exact (db : GeoNamesDB) (name : String)
    (h : db.isReady = true) :
    searchByName db name =
      .ok (db.cities.filter (fun r => r.ascii == jsToLowerStr name)) ∧
    ∀ r : GeoRecord, r ∈ searchByNamePure db name ↔
      (r ∈ db.cities ∧ r.ascii = jsToLowerStr name) := by
  constructor
  · simp [searchByName, searchByNamePure, h]
  · intro r
    simp [searchByNamePure, List.mem_filter]

/-- C9 amended witness: the diacritic-free query is found by exact lowercase
match. -/
theorem searchGlobal_lowercase_exact_witness :
    searchByName quebecDb "Quebec" = .ok [quebecRec] :=
  ((searchGlobal_lowercase_exact quebecDb "Quebec" rfl).1).trans (by decide)

/-! ## C6: `searchAllSources` union, dedup, superset -/

/-- Every record emitted by the dedup loop has an id outside `seen`. -/
theorem dedupByIdAux_id_not_seen :
    ∀ (l : List GeoRecord) (seen : List Nat),
      ∀ r ∈ dedupByIdAux seen l, r.geonameId ∉ seen := by
  intro l
  induction l with
  | nil => intro seen r hr; simp [dedupByIdAux] at hr
  | cons c cs ih =>
    intro seen r hr
    by_cases hc : seen.contains c.geonameId
    · rw [dedupByIdAux, if_pos hc] at hr
      exact ih seen r hr
    · rw [dedupByIdAux, if_neg hc] at hr
      rcases List.mem_cons.mp hr with h1 | h1
      · subst h1
        simpa using hc
      · have := ih (c.geonameId :: seen) r h1
        intro hmem
        exact this (List.mem_cons_of_mem _ hmem)

/-- The dedup loop emits ids without duplicates. -/
theorem dedupByIdAux_nodup :
    ∀ (l : List GeoRecord) (seen : List Nat),
      ((dedupByIdAux seen l).map (fun r => r.geonameId)).Nodup := by
  intro l
  induction l with
  | nil => intro seen; simp [dedupByIdAux]
  | cons c cs ih =>
    intro seen
    by_cases hc : seen.contains c.geonameId
    · rw [dedupByIdAux, if_pos hc]
      exact ih seen
    · rw [dedupByIdAux, if_neg hc]
      refine List.Nodup.cons ?_ (ih (c.geonameId :: seen))
      intro hmem
      simp only [List.mem_map] at hmem
      obtain ⟨r, hr, hid⟩ := hmem
      have := dedupByIdAux_id_not_seen cs (c.geonameId :: seen) r hr
      exact this (by simp [hid])

/-- Every id occurring in the input and not in `seen` still occurs in the
dedup loop's output. -/
theorem dedupByIdAux_covers :
    ∀ (l : List GeoRecord) (seen : List Nat) (r : GeoRecord),
      r ∈ l → r.geonameId ∉ seen →
      ∃ r2 ∈ dedupByIdAux seen l, r2.geonameId = r.geonameId := by
  intro l
  induction l with
  | nil => intro seen r hr; simp at hr
  | cons c cs ih =>
    intro seen r hr hid
    by_cases hc : seen.contains c.geonameId
    · rw [dedupByIdAux, if_pos hc]
      rcases List.mem_cons.mp hr with h1 | h1
      · subst h1
        exact absurd (by simpa using hc) hid
      · exact ih seen r h1 hid
    · rw [dedupByIdAux, if_neg hc]
      by_cases heq : r.geonameId = c.geonameId
      · exact ⟨c, List.mem_cons_self _ _, heq.symm⟩
      · rcases List.mem_cons.mp hr with h1 | h1
        · exact absurd (h1 ▸ rfl) heq
        · obtain ⟨r2, hr2, hid2⟩ :=
            ih (c.geonameId :: seen) r h1 (by simp [heq, hid])
          exact ⟨r2, List.mem_cons_of_mem _ hr2, hid2⟩

/-- C6: `searchAllSources` returns the two partition results, global first,
deduplicated by `geonameId`; its id set covers each partition's result ids
and contains no duplicate id. -/
theorem searchAll_union_dedup (db : GeoNamesDB) (name : String)
    (h : db.isReady = true) :
    searchAllSources db name =
      .ok (dedupById (searchByNamePure db name ++ searchCountryDataPure db name)) ∧
    (∀ r ∈ searchByNamePure db name,
      ∃ r2 ∈ searchAllPure db name, r2.geonameId = r.geonameId) ∧
    (∀ r ∈ searchCountryDataPure db name,
      ∃ r2 ∈ searchAllPure db name, r2.geonameId = r.geonameId) ∧
    ((searchAllPure db name).map (fun r => r.geonameId)).Nodup := by
  have h1 : searchByName db name = .ok (searchByNamePure db name) := by
    simp [searchByName, h]
  have h2 : searchCountryData db name = .ok (searchCountryDataPure db name) := by
    simp [searchCountryData, h]
  refine ⟨?_, ?_, ?_, ?_⟩
  · unfold searchAllSources
    rw [h1, h2]
    rfl
  · intro r hr
    exact dedupByIdAux_covers _ [] r (List.mem_append_left _ hr) (by simp)
  · intro r hr
    exact dedupByIdAux_covers _ [] r (List.mem_append_right _ hr) (by simp)
  · exact dedupByIdAux_nodup _ []

/-- A record with the same id as `parisFR` but different data, stored in the
country partition. -/
def parisFRCountry : GeoRecord :=
  { geonameId := 1, name := "Paris", ascii := "paris", country := "FR",
    admin1 := "11", pop := 2140000 }

/-- A store holding `paris` records in both partitions with one overlapping
id. -/
def bothDb : GeoNamesDB :=
  { isReady := true, cities := [parisFR, parisUS],
    countryData := [parisFRCountry], downloadCache := [] }

/-- C6 witness: the overlapping id is emitted once, from the global
partition, global results first. -/
theorem searchAll_union_dedup_witness :
    searchAllSources bothDb "Paris" = .ok [parisFR, parisUS] :=
  ((searchAll_union_dedup bothDb "Paris" rfl).1).trans (by decide)

/-! ## C1: qualifier filtering returns all survivors -/

/-- On an initialized store `findMatches` is the pure matcher body applied to
the chosen search scope. -/
theorem findMatches_ready (cand : Candidate) (db : GeoNamesDB) (u : Bool)
    (fc : Option (List String)) (h : db.isReady = true) :
    findMatches cand db u fc =
      .ok (findMatchesPure cand (scopeList db u cand.name) fc) := by
  have h1 : searchByName db cand.name = .ok (searchByNamePure db cand.name) := by
    simp [searchByName, h]
  have h2 : searchCountryData db cand.name =
      .ok (searchCountryDataPure db cand.name) := by
    simp [searchCountryData, h]
  cases u with
  | true =>
    unfold findMatches
    rw [if_pos rfl, h2]
    rfl
  | false =>
    unfold findMatches
    rw [if_neg (by simp), searchAllSources, h1, h2]
    rfl

/-- With a qualifier and no country filter, the pure matcher body is exactly
the qualifier filter over the whole scope. -/
theorem findMatchesPure_qualifier (cand : Candidate) (l : List GeoRecord)
    (q : String) (hq : cand.qualifier = some q) :
    findMatchesPure cand l none = l.filter (qualifierAccepts q) := by
  by_cases hl : l = []
  · subst hl
    simp [findMatchesPure]
  · simp only [findMatchesPure, survivors, if_neg hl, hq, filterByQualifier]

/-- C1: for a candidate with a qualifier (no allowed-countries restriction),
the matcher returns all records of the chosen search scope accepted by the
qualifier, and the acceptance predicate is exactly: the qualifier equals,
case-insensitively, the record's country code, its resolved country name, the
name of an enumerated `COUNTRY_NAMES` entry for the record's country, or the
record's non-empty `admin1` code. -/
theorem matcher_qualifier_filters_all (cand : Candidate) (db : GeoNamesDB)
    (u : Bool) (q : String) (hq : cand.qualifier = some q)
    (h : db.isReady = true) :
    findMatches cand db u none =
      .ok ((scopeList db u cand.name).filter (qualifierAccepts q)) ∧
    ∀ r : GeoRecord, qualifierAccepts q r = true ↔
      (jsToLowerStr r.country = jsToLowerStr q ∨
       jsToLowerStr (getCountryName r.country) = jsToLowerStr q ∨
       (∃ p ∈ COUNTRY_NAMES, jsToLowerStr p.2 = jsToLowerStr q ∧ p.1 = r.country) ∨
       (r.admin1 ≠ "" ∧ jsToLowerStr r.admin1 = jsToLowerStr q)) := by
  constructor
  · rw [findMatches_ready cand db u none h,
      findMatchesPure_qualifier cand _ q hq]
  · intro r
    simp only [qualifierAccepts]
    split_ifs with h1 h2 h3 h4
    · simp only [true_iff]
      exact Or.inl (by simpa using h1)
    · simp only [true_iff]
      exact Or.inr (Or.inl (by simpa using h2))
    · simp only [true_iff]
      refine Or.inr (Or.inr (Or.inl ?_))
      rw [List.any_eq_true] at h3
      obtain ⟨p, hp, hcond⟩ := h3
      rw [Bool.and_eq_true] at hcond
      exact ⟨p, hp, by simpa using hcond.1, by simpa using hcond.2⟩
    · simp only [true_iff]
      rw [Bool.and_eq_true] at h4
      exact Or.inr (Or.inr (Or.inr ⟨by simpa using h4.1, by simpa using h4.2⟩))
    · simp only [Bool.false_eq_true, false_iff]
      push_neg
      refine ⟨by simpa using h1, by simpa using h2, ?_, ?_⟩
      · intro p hp hname
        by_contra hcode
        refine h3 (List.any_eq_true.mpr ⟨p, hp, ?_⟩)
        rw [Bool.and_eq_true]
        exact ⟨by simpa using hname, by simpa using hcode⟩
      · intro hadmin
        by_contra hlow
        refine h4 ?_
        rw [Bool.and_eq_true]
        exact ⟨by simpa using hadmin, by simpa using hlow⟩

/-- C1 witness: the Paris/France example — only the FR record survives (by
resolved country name), the US-TX record is filtered out. -/
theorem matcher_qualifier_filters_all_witness :
    findMatches { name := "Paris", qualifier := some "France" } parisDb
      false none = .ok [parisFR] :=
  ((matcher_qualifier_filters_all
      { name := "Paris", qualifier := some "France" } parisDb false "France"
      rfl rfl).1).trans (by decide)

/-! ## C2: population-based single pick -/

/-- The first element of maximal population of `m :: l` (earlier elements win
ties). -/
def firstMax (m : GeoRecord) : List GeoRecord → GeoRecord
  | [] => m
  | x :: xs => if (firstMax x xs).pop ≤ m.pop then m else firstMax x xs

/-- The stable descending-population sort of a non-empty list starts with its
first maximal-population element. -/
theorem isort_popGe_head :
    ∀ (xs : List GeoRecord) (x : GeoRecord),
      (isort popGe (x :: xs)).head? = some (firstMax x xs) := by
  intro xs
  induction xs with
  | nil => intro x; simp [isort, insertLe, firstMax]
  | cons y ys ih =>
    intro x
    show (insertLe popGe x (isort popGe (y :: ys))).head? = _
    cases hl : isort popGe (y :: ys) with
    | nil => exact absurd (hl ▸ ih y) (by simp)
    | cons h t =>
      have hh : h = firstMax y ys := by
        have := ih y
        rw [hl] at this
        simpa using this
      subst hh
      by_cases hle : popGe x (firstMax y ys)
      · rw [insertLe, if_pos hle]
        simp only [List.head?_cons, Option.some.injEq]
        rw [firstMax, if_pos (by simpa [popGe] using hle)]
      · rw [insertLe, if_neg hle]
        simp only [List.head?_cons, Option.some.injEq]
        rw [firstMax, if_neg (by simpa [popGe] using hle)]

/-- Decomposition: `firstMax r rs` is an element of `r :: rs`, every element
before it has strictly smaller population and every element after it has
population at most its own. -/
theorem firstMax_spec :
    ∀ (rs : List GeoRecord) (r : GeoRecord),
      ∃ l₁ l₂, r :: rs = l₁ ++ firstMax r rs :: l₂ ∧
        (∀ x ∈ l₁, x.pop < (firstMax r rs).pop) ∧
        (∀ x ∈ l₂, x.pop ≤ (firstMax r rs).pop) := by
  intro rs
  induction rs with
  | nil =>
    intro r
    exact ⟨[], [], by simp [firstMax], by simp, by simp⟩
  | cons y ys ih =>
    intro r
    obtain ⟨m₁, m₂, hsplit, hlt, hle⟩ := ih y
    have hall : ∀ x ∈ y :: ys, x.pop ≤ (firstMax y ys).pop := by
      intro x hx
      rw [hsplit] at hx
      rcases List.mem_append.mp hx with hx | hx
      · exact le_of_lt (hlt x hx)
      · rcases List.mem_cons.mp hx with hx | hx
        · rw [hx]
        · exact hle x hx
    by_cases hif : (firstMax y ys).pop ≤ r.pop
    · rw [firstMax, if_pos hif]
      refine ⟨[], y :: ys, by simp, by simp, ?_⟩
      intro x hx
      exact le_trans (hall x hx) hif
    · rw [firstMax, if_neg hif]
      refine ⟨r :: m₁, m₂, by rw [List.cons_append, hsplit], ?_, hle⟩
      intro x hx
      rcases List.mem_cons.mp hx with hx | hx
      · rw [hx]
        omega
      · exact hlt x hx

/-- `survivors` of the empty list is empty. -/
theorem survivors_nil (fc : Option (List String)) : survivors [] fc = [] := by
  cases fc with
  | none => rfl
  | some l => simp [survivors]

/-- C2: for a qualifier-free candidate whose surviving scope results are
non-empty, the matcher returns exactly one record — the first
maximal-population survivor (descending stable sort, ties by input order). -/
theorem matcher_population_pick (cand : Candidate) (db : GeoNamesDB)
    (u : Bool) (fc : Option (List String)) (r : GeoRecord)
    (rs : List GeoRecord) (hq : cand.qualifier = none)
    (h : db.isReady = true)
    (hs : survivors (scopeList db u cand.name) fc = r :: rs) :
    findMatches cand db u fc = .ok [firstMax r rs] ∧
    ∃ l₁ l₂, r :: rs = l₁ ++ firstMax r rs :: l₂ ∧
      (∀ x ∈ l₁, x.pop < (firstMax r rs).pop) ∧
      (∀ x ∈ l₂, x.pop ≤ (firstMax r rs).pop) := by
  constructor
  · rw [findMatches_ready cand db u fc h]
    have hscope : scopeList db u cand.name ≠ [] := by
      intro hnil
      rw [hnil, survivors_nil] at hs
      exact absurd hs (by simp)
    have htake : (isort popGe (r :: rs)).take 1 = [firstMax r rs] := by
      have hhead := isort_popGe_head rs r
      cases hsort : isort popGe (r :: rs) with
      | nil => rw [hsort] at hhead; exact absurd hhead (by simp)
      | cons a t =>
        rw [hsort] at hhead
        simp only [List.head?_cons, Option.some.injEq] at hhead
        rw [hhead]
        rfl
    simp only [findMatchesPure, if_neg hscope, hs, hq]
    rw [if_neg (by simp), htake]
  · exact firstMax_spec rs r

def georgetownBig : GeoRecord :=
  { geonameId := 11, name := "Georgetown", ascii := "georgetown",
    country := "GY", admin1 := "", pop := 200000 }

def georgetownSmall : GeoRecord :=
  { geonameId := 12, name := "Georgetown", ascii := "georgetown",
    country := "GY", admin1 := "", pop := 50 }

def georgetownDb : GeoNamesDB :=
  { isReady := true, cities := [georgetownBig, georgetownSmall],
    countryData := [], downloadCache := [] }

/-- C2 witness: the Georgetown example — only the population-200000 record is
returned. -/
theorem matcher_population_pick_witness :
    findMatches { name := "Georgetown", qualifier := none } georgetownDb
      false none = .ok [georgetownBig] :=
  ((matcher_population_pick { name := "Georgetown", qualifier := none }
      georgetownDb false none georgetownBig [georgetownSmall]
      rfl rfl (by decide)).1).trans (by decide)

/-! ## C3: allowed-countries restriction with no fallback -/

/-- Membership is preserved by stable insertion. -/
theorem mem_insertLe {le : α → α → Bool} {x a : α} :
    ∀ {l : List α}, a ∈ insertLe le x l → a = x ∨ a ∈ l := by
  intro l
  induction l with
  | nil => intro ha; simpa [insertLe] using ha
  | cons y ys ih =>
    intro ha
    rw [insertLe] at ha
    split at ha
    · rcases List.mem_cons.mp ha with h1 | h1
      · exact Or.inl h1
      · exact Or.inr h1
    · rcases List.mem_cons.mp ha with h1 | h1
      · exact Or.inr (h1 ▸ List.mem_cons_self _ _)
      · rcases ih h1 with h2 | h2
        · exact Or.inl h2
        · exact Or.inr (List.mem_cons_of_mem _ h2)

/-- Membership is preserved by the stable sort. -/
theorem mem_isort {le : α → α → Bool} {a : α} :
    ∀ {l : List α}, a ∈ isort le l → a ∈ l := by
  intro l
  induction l with
  | nil => intro ha; simp [isort] at ha
  | cons y ys ih =>
    intro ha
    rcases mem_insertLe ha with h1 | h1
    · exact h1 ▸ List.mem_cons_self _ _
    · exact List.mem_cons_of_mem _ (ih h1)

/-- Everything the pure matcher body returns comes from the surviving
(country-filtered) list. -/
theorem findMatchesPure_subset_survivors (cand : Candidate)
    (l : List GeoRecord) (fc : Option (List String)) :
    ∀ r ∈ findMatchesPure cand l fc, r ∈ survivors l fc := by
  intro r hr
  by_cases hl : l = []
  · rw [hl] at hr
    simp [findMatchesPure] at hr
  · rw [findMatchesPure, if_neg hl] at hr
    by_cases hsurv : survivors l fc = []
    · rw [if_pos hsurv] at hr
      simp at hr
    · rw [if_neg hsurv] at hr
      cases hq : cand.qualifier with
      | some q =>
        rw [hq] at hr
        exact List.mem_of_mem_filter hr
      | none =>
        rw [hq] at hr
        exact mem_isort (List.mem_of_mem_take hr)

/-- C3: with a non-empty `filterCountries` list the matcher only ever returns
records from countries in that list, and when the country filter empties the
scope results the matcher returns no match at all (no fallback). -/
theorem matcher_allowed_countries (cand : Candidate) (db : GeoNamesDB)
    (u : Bool) (l : List String) (h : db.isReady = true) (hl : l ≠ []) :
    findMatches cand db u (some l) =
      .ok (findMatchesPure cand (scopeList db u cand.name) (some l)) ∧
    (∀ r ∈ findMatchesPure cand (scopeList db u cand.name) (some l),
      r.country ∈ l) ∧
    ((scopeList db u cand.name).filter (fun m => l.contains m.country) = [] →
      findMatches cand db u (some l) = .ok []) := by
  have hpos : 0 < l.length := by
    cases l with
    | nil => exact absurd rfl hl
    | cons a as => simp
  have hsurv : survivors (scopeList db u cand.name) (some l) =
      (scopeList db u cand.name).filter (fun m => l.contains m.country) := by
    simp [survivors, hpos]
  refine ⟨findMatches_ready cand db u (some l) h, ?_, ?_⟩
  · intro r hr
    have hmem := findMatchesPure_subset_survivors cand _ (some l) r hr
    rw [hsurv] at hmem
    have := List.of_mem_filter hmem
    simpa using this
  · intro hempty
    rw [findMatches_ready cand db u (some l) h]
    by_cases hscope : scopeList db u cand.name = []
    · simp [findMatchesPure, hscope]
    · rw [findMatchesPure, if_neg hscope, hsurv, hempty]
      simp

def tokyoJP : GeoRecord :=
  { geonameId := 21, name := "Tokyo", ascii := "tokyo", country := "JP",
    admin1 := "", pop := 8336599 }

def frTokyoDb : GeoNamesDB :=
  { isReady := true, cities := [parisFR, tokyoJP], countryData := [],
    downloadCache := [] }

/-- C3 witness: restricted to `["FR"]`, a Tokyo candidate finds no match even
though a JP record with that name is in the store. -/
theorem matcher_allowed_countries_witness :
    findMatches { name := "Tokyo", qualifier := none } frTokyoDb false
      (some ["FR"]) = .ok [] :=
  (matcher_allowed_countries { name := "Tokyo", qualifier := none } frTokyoDb
    false ["FR"] rfl (by decide)).2.2 (by decide)

/-! ## C4: detector tally characterization and sortedness -/

/-- `List.contains` agrees with membership (strings have a lawful `BEq`). -/
theorem contains_iff_mem_str {l : List String} {x : String} :
    l.contains x = true ↔ x ∈ l := List.elem_iff

/-- Elements emitted by `firstDedupAux` are new (not in `seen`) and come from
the input. -/
theorem mem_firstDedupAux :
    ∀ (s : List String) (seen : List String) (c : String),
      c ∈ firstDedupAux seen s → seen.contains c = false ∧ c ∈ s := by
  intro s
  induction s with
  | nil => intro seen c hc; simp [firstDedupAux] at hc
  | cons x xs ih =>
    intro seen c hc
    rw [firstDedupAux] at hc
    split at hc
    · obtain ⟨h1, h2⟩ := ih seen c hc
      exact ⟨h1, List.mem_cons_of_mem _ h2⟩
    · rcases List.mem_cons.mp hc with h1 | h1
      · subst h1
        rename_i hcontains
        exact ⟨Bool.eq_false_iff.mpr hcontains, List.mem_cons_self _ _⟩
      · obtain ⟨h1', h2⟩ := ih (x :: seen) c h1
        have : seen.contains c = false := by
          rw [List.contains_cons] at h1'
          exact (Bool.or_eq_false_iff.mp h1').2
        exact ⟨this, List.mem_cons_of_mem _ h2⟩

/-- `firstDedupAux` only looks at `seen` through `contains`. -/
theorem firstDedupAux_congr :
    ∀ (s seen1 seen2 : List String),
      (∀ c, seen1.contains c = seen2.contains c) →
      firstDedupAux seen1 s = firstDedupAux seen2 s := by
  intro s
  induction s with
  | nil => intro seen1 seen2 _; rfl
  | cons x xs ih =>
    intro seen1 seen2 hsame
    rw [firstDedupAux, firstDedupAux, hsame x]
    by_cases hx : seen2.contains x
    · rw [if_pos hx, if_pos hx]
      exact ih seen1 seen2 hsame
    · rw [if_neg hx, if_neg hx]
      refine congrArg (x :: ·) (ih _ _ ?_)
      intro c
      rw [List.contains_cons, List.contains_cons, hsame c]

/-- `bump` on an unseen key appends a fresh entry. -/
theorem bump_not_mem :
    ∀ (acc : List (String × Nat)) (x : String),
      x ∉ acc.map Prod.fst → bump acc x = acc ++ [(x, 1)] := by
  intro acc
  induction acc with
  | nil => intro x _; rfl
  | cons p rest ih =>
    intro x hx
    obtain ⟨k, n⟩ := p
    simp only [List.map_cons, List.mem_cons] at hx
    push_neg at hx
    rw [bump, if_neg (fun hkx => hx.1 hkx.symm), ih x hx.2]
    rfl

/-- `bump` on a seen key (keys distinct) increments exactly that entry. -/
theorem bump_mem :
    ∀ (acc : List (String × Nat)) (x : String),
      (acc.map Prod.fst).Nodup → x ∈ acc.map Prod.fst →
      bump acc x = acc.map (fun p => if p.1 = x then (p.1, p.2 + 1) else p) := by
  intro acc
  induction acc with
  | nil => intro x _ hx; simp at hx
  | cons p rest ih =>
    intro x hnd hx
    obtain ⟨k, n⟩ := p
    by_cases hkx : k = x
    · subst hkx
      rw [bump, if_pos rfl]
      simp only [List.map_cons, if_pos rfl]
      have hknotin : k ∉ rest.map Prod.fst := by
        simp only [List.map_cons, List.nodup_cons] at hnd
        exact hnd.1
      have : rest.map (fun p => if p.1 = k then (p.1, p.2 + 1) else p) = rest := by
        have := List.map_congr_left (l := rest)
          (f := fun p => if p.1 = k then (p.1, p.2 + 1) else p) (g := id) ?_
        · simpa using this
        · intro q hq
          have hqk : q.1 ≠ k := fun hqk =>
            hknotin (hqk ▸ List.mem_map_of_mem Prod.fst hq)
          simp [hqk]
      rw [this]
      simp
    · rw [bump, if_neg hkx]
      simp only [List.map_cons, List.mem_cons] at hx
      rcases hx with hx | hx
      · exact absurd hx.symm hkx
      · simp only [List.map_cons, List.nodup_cons] at hnd
        rw [ih x hnd.2 hx]
        simp [hkx]

/-- Characterization of the detector's `Map` fold: starting from an
accumulator with distinct keys, folding `bump` over a hit stream yields the
accumulator entries with their counts increased by the stream counts,
followed by one entry per unseen distinct stream value (in first-occurrence
order) holding its total stream count. -/
theorem foldl_bump_eq :
    ∀ (s : List String) (acc : List (String × Nat)),
      (acc.map Prod.fst).Nodup →
      s.foldl bump acc =
        acc.map (fun p => (p.1, p.2 + s.count p.1)) ++
        (firstDedupAux (acc.map Prod.fst) s).map (fun c => (c, s.count c)) := by
  intro s
  induction s with
  | nil =>
    intro acc hacc
    simp [firstDedupAux]
  | cons x s2 ih =>
    intro acc hacc
    rw [List.foldl_cons]
    by_cases hx : x ∈ acc.map Prod.fst
    · have hbump := bump_mem acc x hacc hx
      have hkeys : (bump acc x).map Prod.fst = acc.map Prod.fst := by
        rw [hbump, List.map_map]
        apply List.map_congr_left
        intro p _
        by_cases hpx : p.1 = x <;> simp [hpx]
      rw [ih (bump acc x) (by rw [hkeys]; exact hacc), hkeys]
      congr 1
      · rw [hbump, List.map_map]
        apply List.map_congr_left
        intro p _
        by_cases hpx : p.1 = x
        · have hbeq : (x == p.1) = true := by simp [hpx]
          simp only [Function.comp_apply, if_pos hpx, List.count_cons, hbeq,
            if_true, Prod.mk.injEq]
          exact ⟨trivial, by omega⟩
        · have hbeq : ¬ (x == p.1) = true := by
            simpa using fun hxp => hpx hxp.symm
          simp only [Function.comp_apply, if_neg hpx, List.count_cons,
            if_neg hbeq, Prod.mk.injEq]
          exact ⟨trivial, by omega⟩
      · have hcontains : (acc.map Prod.fst).contains x = true :=
          contains_iff_mem_str.mpr hx
        rw [firstDedupAux, if_pos hcontains]
        apply List.map_congr_left
        intro c hc
        obtain ⟨hcnot, _⟩ := mem_firstDedupAux s2 _ c hc
        have hcx : c ≠ x := fun hcx => by
          rw [hcx, hcontains] at hcnot
          exact absurd hcnot (by simp)
        simp [List.count_cons, Ne.symm hcx]
    · have hbump := bump_not_mem acc x hx
      have hkeys : (bump acc x).map Prod.fst = acc.map Prod.fst ++ [x] := by
        rw [hbump, List.map_append]
        rfl
      have hnd2 : ((bump acc x).map Prod.fst).Nodup := by
        rw [hkeys, List.nodup_append]
        exact ⟨hacc, List.nodup_singleton x, List.disjoint_singleton.mpr hx⟩
      rw [ih (bump acc x) hnd2, hkeys, hbump]
      have hfd : firstDedupAux (acc.map Prod.fst) (x :: s2) =
          x :: firstDedupAux (acc.map Prod.fst ++ [x]) s2 := by
        have hcontains : (acc.map Prod.fst).contains x = false :=
          Bool.eq_false_iff.mpr (fun hcon =>
            hx (contains_iff_mem_str.mp hcon))
        rw [firstDedupAux, hcontains]
        simp only [Bool.false_eq_true, if_false]
        refine congrArg (x :: ·) (firstDedupAux_congr s2 _ _ ?_)
        intro c
        rw [List.contains_cons]
        by_cases hcx : c ∈ acc.map Prod.fst ++ [x]
        · rw [contains_iff_mem_str.mpr hcx]
          rcases List.mem_append.mp hcx with h1 | h1
          · rw [contains_iff_mem_str.mpr h1]
            simp
          · simp only [List.mem_singleton] at h1
            simp [h1]
        · have h1 : (acc.map Prod.fst ++ [x]).contains c = false :=
            Bool.eq_false_iff.mpr (fun hcon =>
              hcx (contains_iff_mem_str.mp hcon))
          rw [h1]
          simp only [List.mem_append, List.mem_singleton, not_or] at hcx
          have h2 : (acc.map Prod.fst).contains c = false :=
            Bool.eq_false_iff.mpr (fun hcon =>
              hcx.1 (contains_iff_mem_str.mp hcon))
          have h4 : (c == x) = false := by
            simpa using hcx.2
          rw [h2, h4]
          rfl
      rw [hfd]
      simp only [List.map_append, List.map_cons, List.map_nil,
        List.append_assoc, List.singleton_append]
      congr 1
      · apply List.map_congr_left
        intro p hp
        have hpx : p.1 ≠ x := fun hpx =>
          hx (hpx ▸ List.mem_map_of_mem Prod.fst hp)
        simp [List.count_cons, Ne.symm hpx]
      · rw [List.cons.injEq]
        constructor
        · have hbeq : (x == x) = true := beq_self_eq_true x
          simp only [List.count_cons, hbeq, if_true, Prod.mk.injEq]
          exact ⟨trivial, by omega⟩
        · apply List.map_congr_left
          intro c hc
          obtain ⟨hcnot, _⟩ := mem_firstDedupAux s2 _ c hc
          have hmem : c ∉ acc.map Prod.fst ++ [x] := fun hm => by
            rw [contains_iff_mem_str.mpr hm] at hcnot
            exact absurd hcnot (by simp)
          have hcx : c ≠ x := fun hcxeq => hmem (by simp [hcxeq])
          simp [List.count_cons, Ne.symm hcx]

/-- Code-unit string comparison is total. -/
theorem charsLe_total : ∀ (a b : List Char),
    charsLe a b = true ∨ charsLe b a = true := by
  intro a
  induction a with
  | nil => intro b; exact Or.inl rfl
  | cons c cs ih =>
    intro b
    cases b with
    | nil => exact Or.inr rfl
    | cons d ds =>
      by_cases hcd : c.toNat < d.toNat
      · exact Or.inl (by simp [charsLe, hcd])
      · by_cases hdc : d.toNat < c.toNat
        · exact Or.inr (by simp [charsLe, hdc])
        · rcases ih ds with h | h
          · exact Or.inl (by simp [charsLe, hcd, hdc, h])
          · exact Or.inr (by simp [charsLe, hcd, hdc, h])

/-- The detector's comparator is total. -/
theorem ccLe_total : ∀ (a b : String × Nat),
    ccLe a b = true ∨ ccLe b a = true := by
  intro a b
  by_cases hcnt : a.2 = b.2
  · rcases charsLe_total a.1.data b.1.data with h | h
    · exact Or.inl (by simp [ccLe, hcnt, strLe, h])
    · exact Or.inr (by simp [ccLe, hcnt.symm, strLe, h])
  · by_cases hlt : b.2 < a.2
    · exact Or.inl (by simp [ccLe, hcnt, hlt])
    · have hne : ¬ b.2 = a.2 := fun h => hcnt h.symm
      have hab : a.2 < b.2 := by omega
      exact Or.inr (by simp [ccLe, hne, hab])

/-- Stable insertion preserves sortedness for a total comparator. -/
theorem chain'_insertLe (le : α → α → Bool)
    (htot : ∀ a b, le a b = true ∨ le b a = true) (x : α) :
    ∀ (l : List α), List.Chain' (fun a b => le a b = true) l →
      List.Chain' (fun a b => le a b = true) (insertLe le x l) := by
  intro l
  induction l with
  | nil => intro _; simp [insertLe]
  | cons y ys ih =>
    intro hch
    by_cases hxy : le x y = true
    · rw [insertLe, if_pos hxy]
      exact List.Chain'.cons hxy hch
    · rw [insertLe, if_neg hxy]
      have hyx : le y x = true := (htot x y).resolve_left hxy
      have hch2 := ih (List.Chain'.tail hch)
      cases ys with
      | nil => exact List.Chain'.cons hyx (by simp [insertLe])
      | cons z zs =>
        rw [insertLe] at hch2 ⊢
        by_cases hxz : le x z = true
        · rw [if_pos hxz] at hch2 ⊢
          exact List.Chain'.cons hyx hch2
        · rw [if_neg hxz] at hch2 ⊢
          have hyz : le y z = true := (List.chain'_cons.mp hch).1
          exact List.Chain'.cons hyz hch2

/-- The stable sort is sorted for a total comparator. -/
theorem chain'_isort (le : α → α → Bool)
    (htot : ∀ a b, le a b = true ∨ le b a = true) :
    ∀ (l : List α), List.Chain' (fun a b => le a b = true) (isort le l) := by
  intro l
  induction l with
  | nil => simp [isort]
  | cons x xs ih => exact chain'_insertLe le htot x (isort le xs) ih

/-- C4: the country detector equals — entry for entry — the first-occurrence
tally of the global-partition hits (one per returned record per candidate)
sorted by descending count with alphabetical tie-break and truncated to 10;
the output is so sorted and never longer than 10. -/
theorem detector_frequency_sorted (candidates : List Candidate)
    (db : GeoNamesDB) :
    detectCountriesFromCandidates candidates db =
      ((isort ccLe
        ((firstDedup (candidates.flatMap (candidateHits db))).map
          (fun c => (c, (candidates.flatMap (candidateHits db)).count c)))).take
        10).map (fun p => { code := p.1, count := p.2 }) ∧
    List.Chain'
      (fun a b => b.count < a.count ∨ (a.count = b.count ∧ strLe a.code b.code = true))
      (detectCountriesFromCandidates candidates db) ∧
    (detectCountriesFromCandidates candidates db).length ≤ 10 := by
  have htally : (candidates.flatMap (candidateHits db)).foldl bump [] =
      (firstDedup (candidates.flatMap (candidateHits db))).map
        (fun c => (c, (candidates.flatMap (candidateHits db)).count c)) := by
    have := foldl_bump_eq (candidates.flatMap (candidateHits db)) [] (by simp)
    simpa [firstDedup] using this
  refine ⟨?_, ?_, ?_⟩
  · rw [detectCountriesFromCandidates, htally]
  · rw [detectCountriesFromCandidates]
    have hsorted := chain'_isort ccLe ccLe_total
      ((candidates.flatMap (candidateHits db)).foldl bump [])
    have htake := hsorted.take 10
    rw [List.chain'_map]
    refine List.Chain'.imp ?_ htake
    intro a b hab
    rw [ccLe] at hab
    by_cases hcnt : a.2 = b.2
    · rw [if_pos hcnt] at hab
      exact Or.inr ⟨hcnt, hab⟩
    · rw [if_neg hcnt] at hab
      exact Or.inl (by simpa using hab)
  · rw [detectCountriesFromCandidates]
    simp only [List.length_map, List.length_take]
    omega

/-! ## C5: detector on repeated mentions (corrected) -/

/-- A global partition resolving Paris to FR and Berlin to DE. -/
def detectDb : GeoNamesDB :=
  { isReady := true,
    cities := [parisFR,
      { geonameId := 3, name := "Berlin", ascii := "berlin", country := "DE",
        admin1 := "16", pop := 3426354 }],
    countryData := [], downloadCache := [] }

/-- C5 counterexample: on a text mentioning "Paris" 3 times and "Berlin"
once, with Paris resolving to FR and Berlin to DE, the pipeline yields
`[{DE, 1}, {FR, 1}]` — not the claimed `[{FR, 3}, {DE, 1}]` — because Pass B
deduplicates repeated mentions and equal counts are ordered alphabetically
by code. -/
theorem detector_example_counterexample :
    geocodeDetect "Paris. Paris. Paris. Berlin." detectDb =
      [{ code := "DE", count := 1 }, { code := "FR", count := 1 }] ∧
    geocodeDetect "Paris. Paris. Paris. Berlin." detectDb ≠
      [{ code := "FR", count := 3 }, { code := "DE", count := 1 }] := by
  decide

/-- C5 amended: the same input yields one candidate per distinct name (Pass B
deduplication), hence count 1 for each of FR and DE, sorted alphabetically on
the tie: `[{DE, 1}, {FR, 1}]`. -/
theorem detector_example_actual :
    extractCandidates "Paris. Paris. Paris. Berlin." = [] ∧
    extractCapitalizedWords "Paris. Paris. Paris. Berlin." =
      [{ name := "Paris", qualifier := none },
       { name := "Berlin", qualifier := none }] ∧
    geocodeDetect "Paris. Paris. Paris. Berlin." detectDb =
      [{ code := "DE", count := 1 }, { code := "FR", count := 1 }] := by
  decide

/-! ## C10: the lowercase-next-character branch of Pass B is dead -/

/-- A successful match attempt always ends at a position satisfying the
trailing `\b`. -/
theorem matchAt_endOk {cs w r} (h : matchAt cs = some (w, r)) :
    endOk r = true := by
  unfold matchAt at h
  repeat' split at h
  all_goals try exact Option.noConfusion h
  all_goals injection h with h2
  all_goals injection h2 with h3 h4
  all_goals subst h4
  all_goals assumption

/-- The character following any Pass-B match is not a lowercase letter. -/
theorem scanB_next_not_lower :
    ∀ (fuel : Nat) (pw : Bool) (cs : List Char),
      ∀ p ∈ scanB fuel pw cs, ∀ c, p.2 = some c → isLowerA c = false := by
  intro fuel
  induction fuel with
  | zero => intro pw cs p hp; simp [scanB] at hp
  | succ fuel ih =>
    intro pw cs p hp c hc
    cases cs with
    | nil => simp [scanB] at hp
    | cons d rest =>
      rw [scanB] at hp
      by_cases hpw : pw
      · rw [if_pos hpw] at hp
        exact ih _ _ p hp c hc
      · rw [if_neg hpw] at hp
        cases hm : matchAt (d :: rest) with
        | none =>
          rw [hm] at hp
          exact ih _ _ p hp c hc
        | some q =>
          obtain ⟨w, r⟩ := q
          rw [hm] at hp
          rcases List.mem_cons.mp hp with h1 | h1
          · subst h1
            have hend := matchAt_endOk hm
            cases r with
            | nil => simp at hc
            | cons c2 t =>
              simp only [List.head?_cons, Option.some.injEq] at hc
              rw [endOk] at hend
              have hw : isWordChar c2 = false := by simpa using hend
              rw [isWordChar] at hw
              simp only [Bool.or_eq_false_iff] at hw
              rw [← hc]
              exact hw.1.1.2
          · exact ih _ _ p h1 c hc

/-- With no match followed by a lowercase letter, the two Pass-B processors
agree (for any `seen` state). -/
theorem processB_eq_noSkip :
    ∀ (ms : List (List Char × Option Char)) (seen : List String),
      (∀ p ∈ ms, ∀ c, p.2 = some c → isLowerA c = false) →
      processB seen ms = processBNoSkip seen ms := by
  intro ms
  induction ms with
  | nil => intro seen _; rfl
  | cons p ms2 ih =>
    intro seen hall
    obtain ⟨w, nc⟩ := p
    have htail : ∀ q ∈ ms2, ∀ c, q.2 = some c → isLowerA c = false :=
      fun q hq => hall q (List.mem_cons_of_mem _ hq)
    have hlow : ∀ c, nc = some c → isLowerA c = false :=
      fun c hc => hall (w, nc) (List.mem_cons_self _ _) c hc
    simp only [processB, processBNoSkip]
    by_cases hseen : List.contains seen (jsToLowerStr (String.mk w)) = true
    · rw [if_pos hseen, if_pos hseen]
      exact ih seen htail
    · rw [if_neg hseen, if_neg hseen]
      by_cases hstop :
          (isStopWord (String.mk w) || isCommonFalsePositive (String.mk w)) = true
      · rw [if_pos hstop, if_pos hstop]
        exact ih seen htail
      · rw [if_neg hstop, if_neg hstop]
        cases nc with
        | none =>
          dsimp only
          rw [if_neg (by simp : ¬ (false = true)), ih _ htail]
        | some c =>
          have h5 : isLowerA c = false := hlow c rfl
          dsimp only
          rw [h5, if_neg (by simp : ¬ (false = true)), ih _ htail]

/-- C10: Pass B's output is unchanged for every input when the
lowercase-next-character skip branch is removed, because no successful match
of the capitalized-word pattern is ever immediately followed by a lowercase
letter. -/
theorem passB_lowercase_skip_dead (text : String) :
    extractCapitalizedWords text = extractCapitalizedWordsNoSkip text ∧
    (scanB text.data.length false text.data).all
      (fun p => match p.2 with
        | some c => !isLowerA c
        | none => true) = true := by
  constructor
  · exact processB_eq_noSkip _ []
      (scanB_next_not_lower text.data.length false text.data)
  · rw [List.all_eq_true]
    intro p hp
    cases hnc : p.2 with
    | none => simp
    | some c =>
      have := scanB_next_not_lower text.data.length false text.data p hp c hnc
      simp [this]
